import Mathlib

/-!
Shallow embedding of the Go image-border-removal tool (`main.go` of
zurustar/gazounomawarinoiranaifuchiwokesu).

Modelling conventions:

* A pixel color is a triple of 8-bit channel values (`Nat`, 0..255).  The Go
  code obtains channels via `c.RGBA()` (16-bit, alpha-premultiplied) and
  immediately shifts by 8, so for the opaque raster images the tool decodes
  this recovers exactly the 8-bit channel value; alpha is ignored throughout.
* An image is a width, a height and a pixel grid addressed by
  `(x, y)` with `x ∈ [0, width)`, `y ∈ [0, height)`, with `Bounds().Min = (0,0)`
  as for every image produced by Go's PNG/JPEG decoders.
  `Image.At` models Go's `img.At`: out-of-bounds access (including the
  negative indices that arise when corner sampling a zero-sized image)
  returns the zero color, as Go's standard raster types do.  `Image.AtN` is
  the same accessor at `Nat` coordinates; the boundary scans only ever access
  in-range, non-negative coordinates, and the lemma `At_natCast` proves the
  two accessors agree there.
* Go's `float64(matchCount)/float64(total) >= 0.95` is embedded as the exact
  rational test `total ≠ 0 ∧ 95 * total ≤ 100 * matchCount`.  This is exact:
  IEEE-754 division is correctly rounded, so for `0 < total` the comparison of
  the rounded quotient with the double nearest `0.95` agrees with the rational
  comparison whenever `matchCount/total` is either equal to `19/20` or at
  distance at least `1/(20*total)` from it, which by `2^-52` precision covers
  every `total` below `2^50` — far beyond any Go image dimension.  For
  `total = 0` Go computes `0.0/0.0 = NaN` and `NaN >= 0.95` is false, matching
  the `total ≠ 0` conjunct.
-/

/-- Threshold below which every channel must lie for a pixel to be black-ish
(`blackThreshold` in main.go). -/
def blackThreshold : Nat := 60

/-- Threshold above which every channel must lie for a pixel to be white-ish
(`whiteThreshold` in main.go). -/
def whiteThreshold : Nat := 195

/-- Number of further lines inspected when the current line is not removable
(`lookaheadGap` in findContentBounds). -/
def lookaheadGap : Nat := 5

/-- An 8-bit RGB color; alpha is ignored by the classification code. -/
structure Color where
  r : Nat
  g : Nat
  b : Nat
  deriving DecidableEq

/-- A raster image: dimensions plus pixel grid, origin at (0,0). -/
structure Image where
  width : Nat
  height : Nat
  pix : Nat → Nat → Color

/-- Go's `img.At(x, y)` at possibly negative coordinates: out-of-bounds
access yields the zero color, as for the standard raster image types. -/
def Image.At (img : Image) (x y : Int) : Color :=
  if 0 ≤ x ∧ x < (img.width : Int) ∧ 0 ≤ y ∧ y < (img.height : Int) then
    img.pix x.toNat y.toNat
  else ⟨0, 0, 0⟩

/-- Go's `img.At(x, y)` for the non-negative coordinates used by the scans. -/
def Image.AtN (img : Image) (x y : Nat) : Color :=
  if x < img.width ∧ y < img.height then img.pix x y else ⟨0, 0, 0⟩

/-- Predicate `isPixelBlack` of findContentBounds: all channels at most 60. -/
def isPixelBlack (c : Color) : Bool :=
  decide (c.r ≤ blackThreshold ∧ c.g ≤ blackThreshold ∧ c.b ≤ blackThreshold)

/-- Predicate `isPixelWhite` of findContentBounds: all channels at least 195. -/
def isPixelWhite (c : Color) : Bool :=
  decide (whiteThreshold ≤ c.r ∧ whiteThreshold ≤ c.g ∧ whiteThreshold ≤ c.b)

/-- The `TargetMode` enumeration of findContentBounds. -/
inductive TargetMode where
  | ModeNone
  | ModeBlack
  | ModeWhite
  deriving DecidableEq

open TargetMode

/-- The per-pixel test inside the row/column loops of findContentBounds:
`mode == ModeBlack && isPixelBlack(...)` else `mode == ModeWhite && isPixelWhite(...)`. -/
def pixelMatches (mode : TargetMode) (c : Color) : Bool :=
  if mode = ModeBlack then isPixelBlack c
  else if mode = ModeWhite then isPixelWhite c
  else false

/-- The corner pixels sampled by findContentBounds, in source order:
(Min.X, Min.Y), (Max.X-1, Min.Y), (Min.X, Max.Y-1), (Max.X-1, Max.Y-1). -/
def cornerColors (img : Image) : List Color :=
  [img.At 0 0,
   img.At ((img.width : Int) - 1) 0,
   img.At 0 ((img.height : Int) - 1),
   img.At ((img.width : Int) - 1) ((img.height : Int) - 1)]

/-- The corner-counting loop of findContentBounds: each corner increments
`blackCornerCount` if black-ish, else `whiteCornerCount` if white-ish. -/
def countCorners : List Color → Nat × Nat
  | [] => (0, 0)
  | c :: rest =>
    let (bc, wc) := countCorners rest
    if isPixelBlack c then (bc + 1, wc)
    else if isPixelWhite c then (bc, wc + 1)
    else (bc, wc)

/-- The mode decision of findContentBounds (lines 202-219 of main.go). -/
def detectMode (img : Image) : TargetMode :=
  let counts := countCorners (cornerColors img)
  if counts.2 < counts.1 then ModeBlack
  else if counts.1 < counts.2 then ModeWhite
  else if 0 < counts.1 then ModeBlack
  else if 0 < counts.2 then ModeWhite
  else ModeNone

/-- The `matchCount` computed by `isRowRemovable`: matching pixels over the
full width of row `y`. -/
def rowMatchCount (img : Image) (mode : TargetMode) (y : Nat) : Nat :=
  (List.range img.width).countP fun x => pixelMatches mode (img.AtN x y)

/-- Go's `isRowRemovable`: the row's match ratio reaches `noiseTolerance`
(0.95).  The float comparison is embedded exactly; see the header comment. -/
def isRowRemovable (img : Image) (mode : TargetMode) (y : Nat) : Bool :=
  decide (img.width ≠ 0) && decide (95 * img.width ≤ 100 * rowMatchCount img mode y)

/-- The `matchCount` computed by `isColRemovable`: matching pixels over the
full height of column `x` (the source loops `y` over `[Min.Y, Max.Y)`). -/
def colMatchCount (img : Image) (mode : TargetMode) (x : Nat) : Nat :=
  (List.range img.height).countP fun y => pixelMatches mode (img.AtN x y)

/-- Go's `isColRemovable`: the column's match ratio over the image's full
height reaches `noiseTolerance` (0.95). -/
def isColRemovable (img : Image) (mode : TargetMode) (x : Nat) : Bool :=
  decide (img.height ≠ 0) && decide (95 * img.height ≤ 100 * colMatchCount img mode x)

/-- The forward boundary-scan loop shared by the Top (rows) and Left (columns)
scans of findContentBounds.  `p` is the line classifier, `bound` the exclusive
scan limit, `i` the current line, `acc` the boundary so far.  The loop runs at
most `bound` iterations, so the structural fuel (initially `bound`) is never
exhausted while `i < bound`; it only makes the recursion structural. -/
def scanFwd (p : Nat → Bool) (bound : Nat) : Nat → Nat → Nat → Nat
  | 0, _, acc => acc
  | fuel + 1, i, acc =>
    if i < bound then
      if p i then scanFwd p bound fuel (i + 1) (i + 1)
      else if decide (i + lookaheadGap < bound)
          && (List.range lookaheadGap).all (fun k => p (i + (k + 1))) then
        scanFwd p bound fuel (i + 1) (i + 1)
      else acc
    else acc

/-- The backward boundary-scan loop shared by the Bottom and Right scans of
findContentBounds.  The first `Nat` argument is one past the current line
(so `y + 1` scans line `y`), which makes the recursion structural; `low` is
the inclusive lower limit (the already-fixed opposite boundary), `acc` the
boundary so far.  Go's guard `y - lookaheadGap < minY` on ints is
`¬ (low + lookaheadGap ≤ y)` on naturals. -/
def scanBwd (p : Nat → Bool) (low : Nat) : Nat → Nat → Nat
  | 0, acc => acc
  | y + 1, acc =>
    if low ≤ y then
      if p y then scanBwd p low y y
      else if decide (low + lookaheadGap ≤ y)
          && (List.range lookaheadGap).all (fun k => p (y - (k + 1))) then
        scanBwd p low y y
      else acc
    else acc

/-- The Top scan of findContentBounds (lines 271-295). -/
def scanTop (img : Image) (mode : TargetMode) : Nat :=
  scanFwd (isRowRemovable img mode) img.height img.height 0 0

/-- The Bottom scan of findContentBounds (lines 302-326), given the `minY`
fixed by the Top scan. -/
def scanBottom (img : Image) (mode : TargetMode) (minY : Nat) : Nat :=
  scanBwd (isRowRemovable img mode) minY img.height img.height

/-- The Left scan of findContentBounds (lines 328-352). -/
def scanLeft (img : Image) (mode : TargetMode) : Nat :=
  scanFwd (isColRemovable img mode) img.width img.width 0 0

/-- The Right scan of findContentBounds (lines 354-378), given the `minX`
fixed by the Left scan. -/
def scanRight (img : Image) (mode : TargetMode) (minX : Nat) : Nat :=
  scanBwd (isColRemovable img mode) minX img.width img.width

/-- Go's `image.Rectangle` restricted to the non-negative coordinates this
program produces; `min` inclusive, `max` exclusive. -/
structure Rect where
  minX : Nat
  minY : Nat
  maxX : Nat
  maxY : Nat
  deriving DecidableEq

/-- Go's `image.Rect` constructor, which swaps coordinates so that min ≤ max. -/
def mkRect (x0 y0 x1 y1 : Nat) : Rect :=
  if x1 < x0 then
    if y1 < y0 then ⟨x1, y1, x0, y0⟩ else ⟨x1, y0, x0, y1⟩
  else
    if y1 < y0 then ⟨x0, y1, x1, y0⟩ else ⟨x0, y0, x1, y1⟩

/-- Go's `Rectangle.Empty()`: Min.X >= Max.X || Min.Y >= Max.Y. -/
def Rect.isEmpty (r : Rect) : Bool :=
  decide (r.maxX ≤ r.minX) || decide (r.maxY ≤ r.minY)

/-- The image's own bounds, `img.Bounds()`. -/
def fullBounds (img : Image) : Rect := ⟨0, 0, img.width, img.height⟩

/-- Go's `findContentBounds` (lines 158-381 of main.go). -/
def findContentBounds (img : Image) : Rect :=
  let mode := detectMode img
  if mode = ModeNone then fullBounds img
  else
    let minY := scanTop img mode
    if img.height ≤ minY then ⟨0, 0, 0, 0⟩
    else
      let maxY := scanBottom img mode minY
      let minX := scanLeft img mode
      let maxX := scanRight img mode minX
      mkRect minX minY maxX maxY

/-- The decision made by `processImage` on the result of findContentBounds
(lines 116-119 of main.go): an empty rectangle is a per-file error and no
output is written; otherwise processing continues with the rectangle.  The
surrounding image decode/encode I/O is out of scope. -/
def processImageCore (img : Image) : Except String Rect :=
  let bounds := findContentBounds img
  if bounds.isEmpty then Except.error "image is completely black or empty"
  else Except.ok bounds

/-- Go's `cropImage`: the sub-image of `img` over `r`, rebased to the origin
(the model normalizes bounds to (0,0) as the decoders do). -/
def cropImage (img : Image) (r : Rect) : Image :=
  ⟨r.maxX - r.minX, r.maxY - r.minY, fun x y => img.pix (x + r.minX) (y + r.minY)⟩

/-! ### Specification-side reformulations

These definitions restate components in the words of the design spec, to be
compared with the embedded source definitions above. -/

/-- Number of black-ish corners as the spec counts them (§4.2): each corner
classified independently by PixelClassifier. -/
def blackCornerCount (img : Image) : Nat :=
  (cornerColors img).countP fun c => isPixelBlack c

/-- Number of white-ish corners as the spec counts them (§4.2). -/
def whiteCornerCount (img : Image) : Nat :=
  (cornerColors img).countP fun c => isPixelWhite c

/-- The BackgroundModeDetector decision rule exactly as the spec states it
(§4.2, rules 1-5), over the independently counted corners. -/
def detectModeSpec (img : Image) : TargetMode :=
  let bc := blackCornerCount img
  let wc := whiteCornerCount img
  if wc < bc then ModeBlack
  else if bc < wc then ModeWhite
  else if 0 < bc then ModeBlack
  else if 0 < wc then ModeWhite
  else ModeNone

/-- Row match count in the spec's words (§4.3): pixels whose channels all lie
at or below 60 for mode Black, at or above 195 for mode White. -/
def specRowMatchCount (img : Image) (mode : TargetMode) (y : Nat) : Nat :=
  (List.range img.width).countP fun x =>
    match mode with
    | ModeBlack =>
      decide ((img.AtN x y).r ≤ 60 ∧ (img.AtN x y).g ≤ 60 ∧ (img.AtN x y).b ≤ 60)
    | ModeWhite =>
      decide (195 ≤ (img.AtN x y).r ∧ 195 ≤ (img.AtN x y).g ∧ 195 ≤ (img.AtN x y).b)
    | ModeNone => false

/-- One step of the noise-tolerant scan in the spec's words (§4.4, Top/Left):
line `i` is passed over when it is removable, or when at least `lookaheadGap`
further lines exist before `bound` and all of them are removable. -/
def fwdSkip (p : Nat → Bool) (bound i : Nat) : Bool :=
  p i || (decide (i + lookaheadGap < bound)
    && (List.range lookaheadGap).all fun k => p (i + (k + 1)))

/-- One step of the backward noise-tolerant scan (§4.4, Bottom/Right), with
the lookahead window constrained to lie at or above `low`. -/
def bwdSkip (p : Nat → Bool) (low i : Nat) : Bool :=
  p i || (decide (low + lookaheadGap ≤ i)
    && (List.range lookaheadGap).all fun k => p (i - (k + 1)))

/-- The boundary a forward scan ends at, in the spec's words: the first line
in `[0, bound)` that is neither removable nor skippable as noise; `bound`
when every line is passed over. -/
def firstFwdStop (p : Nat → Bool) (bound : Nat) : Nat :=
  ((List.range' 0 bound).find? fun i => !fwdSkip p bound i).getD bound

/-- The boundary a backward scan ends at, in the spec's words: one past the
first line, walking down from `hi - 1` toward `low`, that is neither
removable nor skippable as noise; `low` when every line is passed over. -/
def firstBwdStop (p : Nat → Bool) (low hi : Nat) : Nat :=
  match (List.range' low (hi - low)).reverse.find? (fun i => !bwdSkip p low i) with
  | some i => i + 1
  | none => low

/-- Modelled from the spec: §4.3 restricts a column's match ratio to the
vertical range `[minY, maxY)` already fixed by the top/bottom scans ("this
set ... for columns ... is restricted to the vertical range already fixed by
the top/bottom scans").  The source's `isColRemovable` has no such
restriction; this definition exists to compare the two. -/
def isColRemovableRestricted (img : Image) (mode : TargetMode)
    (minY maxY x : Nat) : Bool :=
  let total := maxY - minY
  let m := (List.range' minY (maxY - minY)).countP fun y =>
    pixelMatches mode (img.AtN x y)
  decide (total ≠ 0) && decide (95 * total ≤ 100 * m)

/-- Modelled from the spec: findContentBounds as §4.4 describes it, identical
to the source except that the Left/Right scans classify columns over the
vertical span `[minY, maxY)` fixed by the completed row scans. -/
def findContentBoundsSpecCols (img : Image) : Rect :=
  let mode := detectMode img
  if mode = ModeNone then fullBounds img
  else
    let minY := scanTop img mode
    if img.height ≤ minY then ⟨0, 0, 0, 0⟩
    else
      let maxY := scanBottom img mode minY
      let p := isColRemovableRestricted img mode minY maxY
      let minX := scanFwd p img.width img.width 0 0
      let maxX := scanBwd p minX img.width img.width
      mkRect minX minY maxX maxY

/-- Test that no pixel on any of the four image edges matches `mode`
(the premise of the spec's idempotence property, §8). -/
def noEdgeMatches (img : Image) (mode : TargetMode) : Bool :=
  ((List.range img.width).all fun x =>
    !pixelMatches mode (img.AtN x 0)
      && !pixelMatches mode (img.AtN x (img.height - 1)))
  && ((List.range img.height).all fun y =>
    !pixelMatches mode (img.AtN 0 y)
      && !pixelMatches mode (img.AtN (img.width - 1) y))

/-! ### Concrete test images -/

/-- Pure black, the canvas color of the black-background scenarios. -/
def blackC : Color := ⟨0, 0, 0⟩

/-- Pure white. -/
def whiteC : Color := ⟨255, 255, 255⟩

/-- A mid gray, neither black-ish nor white-ish. -/
def grayC : Color := ⟨100, 100, 100⟩

/-- A 10x20 black image whose last row has white content in columns 0-5:
the row scans fix the vertical span [19, 20), yet every column is at least
95% black over the full height, so the source's column scans consume the
whole width. -/
def imgColRange : Image :=
  ⟨10, 20, fun x y => if y = 19 ∧ x < 6 then whiteC else blackC⟩

/-- A 100x100 image realizing the spec's Scenario C: corner (0,0) black-ish,
the diagonally opposite corner (99,99) white-ish, the remaining two corners
neither. -/
def imgScenC : Image :=
  ⟨100, 100, fun x y =>
    if x = 0 ∧ y = 0 then blackC
    else if x = 99 ∧ y = 99 then whiteC else grayC⟩

/-- The spec's Scenario D: 100x100 black canvas, white content at
(20,20)-(80,80), plus 4 stray white pixels in otherwise-black row 5. -/
def imgScenD : Image :=
  ⟨100, 100, fun x y =>
    if 20 ≤ x ∧ x < 80 ∧ 20 ≤ y ∧ y < 80 then whiteC
    else if y = 5 ∧ x < 4 then whiteC else blackC⟩

/-- The spec's Scenario E: 100x100 black canvas, white content at
(30,30)-(70,70), one fully white row at y = 10 followed by pure-black rows
11-15. -/
def imgScenE : Image :=
  ⟨100, 100, fun x y =>
    if 30 ≤ x ∧ x < 70 ∧ 30 ≤ y ∧ y < 70 then whiteC
    else if y = 10 then whiteC else blackC⟩

/-- A 20x20 black canvas with a solid white square at (5,5)-(15,15); its crop
is an all-white image, the idempotence counterexample. -/
def imgSquare : Image :=
  ⟨20, 20, fun x y => if 5 ≤ x ∧ x < 15 ∧ 5 ≤ y ∧ y < 15 then whiteC else blackC⟩

/-- A 3x3 all-gray image: every corner is neither black-ish nor white-ish. -/
def imgGray3 : Image := ⟨3, 3, fun _ _ => grayC⟩

/-- A 2x2 all-gray image. -/
def imgGray2 : Image := ⟨2, 2, fun _ _ => grayC⟩

/-- A zero-width image of height 5. -/
def imgW0 : Image := ⟨0, 5, fun _ _ => grayC⟩

/-- A 2x2 all-black image. -/
def imgBlack2 : Image := ⟨2, 2, fun _ _ => blackC⟩

/-- A 2x2 image that is black in column 0 and white in column 1; it agrees
with `imgBlack2` on column 0. -/
def imgHalf2 : Image :=
  ⟨2, 2, fun x _ => if x = 0 then blackC else whiteC⟩

/-! ### Basic lemmas -/

/-- The two pixel accessors agree at non-negative coordinates. -/
theorem At_natCast (img : Image) (x y : Nat) :
    img.At (x : Int) (y : Int) = img.AtN x y := by
  unfold Image.At Image.AtN
  simp [Int.toNat_ofNat]

/-- A pixel cannot be both black-ish and white-ish (60 < 195). -/
theorem isPixelBlack_not_white (c : Color) (h : isPixelBlack c = true) :
    isPixelWhite c = false := by
  simp [isPixelBlack, isPixelWhite, blackThreshold, whiteThreshold] at h ⊢
  omega

/-- With mode Black the per-pixel test is the black-ish classifier. -/
theorem pixelMatches_black (c : Color) :
    pixelMatches ModeBlack c = isPixelBlack c := rfl

/-- With mode White the per-pixel test is the white-ish classifier. -/
theorem pixelMatches_white (c : Color) :
    pixelMatches ModeWhite c = isPixelWhite c := rfl

/-- The corner-counting loop counts black-ish and white-ish corners
independently: the `else if` in the source cannot mask a white-ish corner
behind a black-ish one, because no pixel is both. -/
theorem countCorners_eq (l : List Color) :
    countCorners l
      = (l.countP (fun c => isPixelBlack c), l.countP (fun c => isPixelWhite c)) := by
  induction l with
  | nil => rfl
  | cons c rest ih =>
    simp only [countCorners, ih, List.countP_cons]
    by_cases hb : isPixelBlack c = true
    · have hw := isPixelBlack_not_white c hb
      simp [hb, hw]
    · by_cases hw : isPixelWhite c = true
      · simp [hb, hw]
      · simp [hb, hw]

/-- Forward scans never pass the scan limit. -/
theorem scanFwd_le (p : Nat → Bool) (bound : Nat) :
    ∀ fuel i acc, i ≤ bound → acc ≤ bound → scanFwd p bound fuel i acc ≤ bound := by
  intro fuel
  induction fuel with
  | zero => intro i acc _ hacc; exact hacc
  | succ n ih =>
    intro i acc hi hacc
    simp only [scanFwd]
    by_cases hlt : i < bound
    · simp only [hlt, if_true]
      by_cases hp : p i = true
      · simp only [hp, if_true]
        exact ih (i + 1) (i + 1) hlt hlt
      · simp only [hp, if_false]
        by_cases hla : (decide (i + lookaheadGap < bound)
            && (List.range lookaheadGap).all (fun k => p (i + (k + 1)))) = true
        · simp only [hla, if_true]
          exact ih (i + 1) (i + 1) hlt hlt
        · simp only [hla, if_false]
          exact hacc
    · simp only [hlt, if_false]
      exact hacc

/-- Backward scans stay between the opposite boundary and their start. -/
theorem scanBwd_bounds (p : Nat → Bool) (low : Nat) :
    ∀ y acc, low ≤ y → y ≤ acc →
      low ≤ scanBwd p low y acc ∧ scanBwd p low y acc ≤ acc := by
  intro y
  induction y with
  | zero =>
    intro acc hlow _
    exact ⟨Nat.le_trans hlow (Nat.zero_le acc), Nat.le_refl acc⟩
  | succ n ih =>
    intro acc hlow hacc
    simp only [scanBwd]
    by_cases hle : low ≤ n
    · simp only [hle, if_true]
      by_cases hp : p n = true
      · simp only [hp, if_true]
        rcases ih n hle (Nat.le_refl n) with ⟨h1, h2⟩
        exact ⟨h1, Nat.le_trans h2 (Nat.le_trans (Nat.le_succ n) hacc)⟩
      · simp only [hp, if_false]
        by_cases hla : (decide (low + lookaheadGap ≤ n)
            && (List.range lookaheadGap).all (fun k => p (n - (k + 1)))) = true
        · simp only [hla, if_true]
          rcases ih n hle (Nat.le_refl n) with ⟨h1, h2⟩
          exact ⟨h1, Nat.le_trans h2 (Nat.le_trans (Nat.le_succ n) hacc)⟩
        · simp only [hla, if_false]
          exact ⟨Nat.le_trans hlow hacc, Nat.le_refl acc⟩
    · simp only [hle, if_false]
      exact ⟨Nat.le_trans hlow hacc, Nat.le_refl acc⟩

/-- The Top scan boundary never exceeds the image height. -/
theorem scanTop_le (img : Image) (mode : TargetMode) :
    scanTop img mode ≤ img.height :=
  scanFwd_le _ _ _ 0 0 (Nat.zero_le _) (Nat.zero_le _)

/-- The Left scan boundary never exceeds the image width. -/
theorem scanLeft_le (img : Image) (mode : TargetMode) :
    scanLeft img mode ≤ img.width :=
  scanFwd_le _ _ _ 0 0 (Nat.zero_le _) (Nat.zero_le _)

/-- The Bottom scan boundary lies between `minY` and the image height. -/
theorem scanBottom_bounds (img : Image) (mode : TargetMode) (minY : Nat)
    (h : minY ≤ img.height) :
    minY ≤ scanBottom img mode minY ∧ scanBottom img mode minY ≤ img.height :=
  scanBwd_bounds _ _ _ _ h (Nat.le_refl _)

/-- The Right scan boundary lies between `minX` and the image width. -/
theorem scanRight_bounds (img : Image) (mode : TargetMode) (minX : Nat)
    (h : minX ≤ img.width) :
    minX ≤ scanRight img mode minX ∧ scanRight img mode minX ≤ img.width :=
  scanBwd_bounds _ _ _ _ h (Nat.le_refl _)

/-- When the coordinates are already ordered, `image.Rect` does not swap. -/
theorem mkRect_of_le {x0 y0 x1 y1 : Nat} (hx : x0 ≤ x1) (hy : y0 ≤ y1) :
    mkRect x0 y0 x1 y1 = ⟨x0, y0, x1, y1⟩ := by
  unfold mkRect
  rw [if_neg (Nat.not_lt.2 hx), if_neg (Nat.not_lt.2 hy)]

/-! ### Characterization of the boundary scans -/

/-- A backward scan already below its lower limit returns its accumulator. -/
theorem scanBwd_stop (p : Nat → Bool) (low y acc : Nat) (h : y ≤ low) :
    scanBwd p low y acc = acc := by
  cases y with
  | zero => rfl
  | succ n =>
    simp only [scanBwd]
    rw [if_neg (by omega)]

/-- The forward scan loop stops at the first line that is neither removable
nor skippable as noise (spec §4.4, Top/Left). -/
theorem scanFwd_eq_firstFwdStop (p : Nat → Bool) (bound : Nat) :
    ∀ n i, i + n = bound →
      scanFwd p bound n i i
        = ((List.range' i n).find? fun j => !fwdSkip p bound j).getD bound := by
  intro n
  induction n with
  | zero =>
    intro i h
    simp only [List.range'_zero, List.find?_nil, Option.getD_none, scanFwd]
    omega
  | succ n ih =>
    intro i h
    have hi : i < bound := by omega
    rw [List.range'_succ]
    by_cases hs : fwdSkip p bound i = true
    · rw [List.find?_cons_of_neg _ (by simp [hs])]
      have hrec : scanFwd p bound (n + 1) i i = scanFwd p bound n (i + 1) (i + 1) := by
        simp only [scanFwd, hi, if_true]
        by_cases hp : p i = true
        · simp [hp]
        · have hC : (decide (i + lookaheadGap < bound)
              && (List.range lookaheadGap).all (fun k => p (i + (k + 1)))) = true := by
            have := hs
            simp only [fwdSkip, hp, Bool.false_or] at this
            exact this
          simp [hp, hC]
      rw [hrec]
      exact ih (i + 1) (by omega)
    · have hp : p i = false := by
        by_contra hcon
        apply hs
        simp only [fwdSkip, Bool.or_eq_true]
        exact Or.inl (by simpa using hcon)
      have hC : (decide (i + lookaheadGap < bound)
          && (List.range lookaheadGap).all (fun k => p (i + (k + 1)))) = false := by
        by_contra hcon
        apply hs
        simp only [fwdSkip, Bool.or_eq_true]
        exact Or.inr (by simpa using hcon)
      rw [List.find?_cons_of_pos _ (by simp [hs])]
      simp only [scanFwd, hi, if_true, hp, Bool.false_eq_true, if_false, hC,
        Option.getD_some]

/-- The backward scan loop stops one past the first line, walking down, that
is neither removable nor skippable as noise (spec §4.4, Bottom/Right). -/
theorem scanBwd_eq_firstBwdStop (p : Nat → Bool) (low : Nat) :
    ∀ n y, low + n = y →
      scanBwd p low y y
        = (match (List.range' low n).reverse.find? (fun i => !bwdSkip p low i) with
           | some i => i + 1
           | none => low) := by
  intro n
  induction n with
  | zero =>
    intro y h
    have hy : y = low := by omega
    subst hy
    simp only [List.range'_zero, List.reverse_nil, List.find?_nil]
    exact scanBwd_stop _ _ _ _ (Nat.le_refl _)
  | succ n ih =>
    intro y h
    have hy : y = (low + n) + 1 := by omega
    subst hy
    rw [List.range'_1_concat, List.reverse_append, List.reverse_singleton,
      List.singleton_append]
    by_cases hs : bwdSkip p low (low + n) = true
    · rw [List.find?_cons_of_neg _ (by simp [hs])]
      have hrec : scanBwd p low (low + n + 1) (low + n + 1)
          = scanBwd p low (low + n) (low + n) := by
        simp only [scanBwd]
        rw [if_pos (by omega)]
        by_cases hp : p (low + n) = true
        · rw [if_pos hp]
        · have hpf : p (low + n) = false := by
            revert hp; cases p (low + n) <;> simp
          have hC : (decide (low + lookaheadGap ≤ low + n)
              && (List.range lookaheadGap).all (fun k => p (low + n - (k + 1)))) = true := by
            have := hs
            simp only [bwdSkip, hpf, Bool.false_or] at this
            exact this
          rw [if_neg hp, if_pos hC]
      rw [hrec]
      exact ih (low + n) rfl
    · have hp : p (low + n) = false := by
        by_contra hcon
        apply hs
        simp only [bwdSkip, Bool.or_eq_true]
        exact Or.inl (by simpa using hcon)
      have hC : (decide (low + lookaheadGap ≤ low + n)
          && (List.range lookaheadGap).all (fun k => p (low + n - (k + 1)))) = false := by
        by_contra hcon
        apply hs
        simp only [bwdSkip, Bool.or_eq_true]
        exact Or.inr (by simpa using hcon)
      rw [List.find?_cons_of_pos _ (by simp [hs])]
      simp only [scanBwd]
      rw [if_pos (by omega), if_neg (by simp [hp]), if_neg (by rw [hC]; simp)]

/-- The Top scan equals the spec's first-stop description. -/
theorem scanTop_eq_firstFwdStop (img : Image) (mode : TargetMode) :
    scanTop img mode = firstFwdStop (isRowRemovable img mode) img.height := by
  unfold scanTop firstFwdStop
  exact scanFwd_eq_firstFwdStop _ _ img.height 0 (Nat.zero_add _)

/-- The Left scan equals the spec's first-stop description. -/
theorem scanLeft_eq_firstFwdStop (img : Image) (mode : TargetMode) :
    scanLeft img mode = firstFwdStop (isColRemovable img mode) img.width := by
  unfold scanLeft firstFwdStop
  exact scanFwd_eq_firstFwdStop _ _ img.width 0 (Nat.zero_add _)

/-- The Bottom scan equals the spec's backward first-stop description. -/
theorem scanBottom_eq_firstBwdStop (img : Image) (mode : TargetMode) (minY : Nat)
    (h : minY ≤ img.height) :
    scanBottom img mode minY = firstBwdStop (isRowRemovable img mode) minY img.height := by
  unfold scanBottom firstBwdStop
  exact scanBwd_eq_firstBwdStop _ _ (img.height - minY) img.height (by omega)

/-- The Right scan equals the spec's backward first-stop description. -/
theorem scanRight_eq_firstBwdStop (img : Image) (mode : TargetMode) (minX : Nat)
    (h : minX ≤ img.width) :
    scanRight img mode minX = firstBwdStop (isColRemovable img mode) minX img.width := by
  unfold scanRight firstBwdStop
  exact scanBwd_eq_firstBwdStop _ _ (img.width - minX) img.width (by omega)

/-- A forward scan whose classifier rejects every line keeps its accumulator:
neither the removable branch nor the lookahead can fire. -/
theorem scanFwd_const_false (p : Nat → Bool) (bound : Nat) (hp : ∀ j, p j = false) :
    ∀ fuel i acc, scanFwd p bound fuel i acc = acc := by
  intro fuel i acc
  cases fuel with
  | zero => rfl
  | succ n =>
    simp only [scanFwd]
    by_cases hlt : i < bound
    · rw [if_pos hlt, if_neg (by simp [hp]),
        if_neg (by simp [hp, lookaheadGap, List.range_succ])]
    · rw [if_neg hlt]

/-- A backward scan whose classifier rejects every line keeps its accumulator. -/
theorem scanBwd_const_false (p : Nat → Bool) (low : Nat) (hp : ∀ j, p j = false) :
    ∀ y acc, scanBwd p low y acc = acc := by
  intro y acc
  cases y with
  | zero => rfl
  | succ n =>
    simp only [scanBwd]
    by_cases hle : low ≤ n
    · rw [if_pos hle, if_neg (by simp [hp]),
        if_neg (by simp [hp, lookaheadGap, List.range_succ])]
    · rw [if_neg hle]

/-- When the detected mode is None, findContentBounds is the identity on the
image's bounds. -/
theorem findContentBounds_none (img : Image) (hm : detectMode img = ModeNone) :
    findContentBounds img = fullBounds img := by
  simp only [findContentBounds, hm]
  rw [if_pos trivial]

/-- When the Top scan consumes every row, findContentBounds returns the
zero rectangle. -/
theorem findContentBounds_topEmpty (img : Image) (mode : TargetMode)
    (hm : detectMode img = mode) (hne : ¬ mode = ModeNone)
    (htop : img.height ≤ scanTop img mode) :
    findContentBounds img = ⟨0, 0, 0, 0⟩ := by
  simp only [findContentBounds, hm]
  rw [if_neg hne, if_pos htop]

/-- In the main path, findContentBounds combines the four scan boundaries. -/
theorem findContentBounds_scans (img : Image) (mode : TargetMode)
    (hm : detectMode img = mode) (hne : ¬ mode = ModeNone)
    (htop : ¬ img.height ≤ scanTop img mode) :
    findContentBounds img
      = mkRect (scanLeft img mode) (scanTop img mode)
          (scanRight img mode (scanLeft img mode))
          (scanBottom img mode (scanTop img mode)) := by
  simp only [findContentBounds, hm]
  rw [if_neg hne, if_neg htop]

/-! ### Support lemmas for the individual claims -/

/-- The match count of a row equals the spec's count with the explicit
channel thresholds written out. -/
theorem rowMatchCount_eq_spec (img : Image) (mode : TargetMode) (y : Nat) :
    rowMatchCount img mode y = specRowMatchCount img mode y := by
  unfold rowMatchCount specRowMatchCount
  apply List.countP_congr
  intro x _
  cases mode <;>
    simp [pixelMatches, isPixelBlack, isPixelWhite, blackThreshold, whiteThreshold]

/-- A Black verdict requires at least one black-ish corner. -/
theorem detectMode_black_corner (img : Image) (h : detectMode img = ModeBlack) :
    ∃ c ∈ cornerColors img, isPixelBlack c = true := by
  have hpos : 0 < (cornerColors img).countP (fun c => isPixelBlack c) := by
    unfold detectMode at h
    rw [countCorners_eq] at h
    by_cases c1 : (cornerColors img).countP (fun c => isPixelWhite c)
        < (cornerColors img).countP (fun c => isPixelBlack c)
    · omega
    · rw [if_neg c1] at h
      by_cases c2 : (cornerColors img).countP (fun c => isPixelBlack c)
          < (cornerColors img).countP (fun c => isPixelWhite c)
      · rw [if_pos c2] at h; cases h
      · rw [if_neg c2] at h
        by_cases c3 : 0 < (cornerColors img).countP (fun c => isPixelBlack c)
        · exact c3
        · rw [if_neg c3] at h
          by_cases c4 : 0 < (cornerColors img).countP (fun c => isPixelWhite c)
          · rw [if_pos c4] at h; cases h
          · rw [if_neg c4] at h; cases h
  simpa using List.countP_pos_iff.mp hpos

/-- A White verdict requires at least one white-ish corner. -/
theorem detectMode_white_corner (img : Image) (h : detectMode img = ModeWhite) :
    ∃ c ∈ cornerColors img, isPixelWhite c = true := by
  have hpos : 0 < (cornerColors img).countP (fun c => isPixelWhite c) := by
    unfold detectMode at h
    rw [countCorners_eq] at h
    by_cases c1 : (cornerColors img).countP (fun c => isPixelWhite c)
        < (cornerColors img).countP (fun c => isPixelBlack c)
    · rw [if_pos c1] at h; cases h
    · rw [if_neg c1] at h
      by_cases c2 : (cornerColors img).countP (fun c => isPixelBlack c)
          < (cornerColors img).countP (fun c => isPixelWhite c)
      · omega
      · rw [if_neg c2] at h
        by_cases c3 : 0 < (cornerColors img).countP (fun c => isPixelBlack c)
        · rw [if_pos c3] at h; cases h
        · rw [if_neg c3] at h
          by_cases c4 : 0 < (cornerColors img).countP (fun c => isPixelWhite c)
          · exact c4
          · rw [if_neg c4] at h; cases h
  simpa using List.countP_pos_iff.mp hpos

/-- For a non-degenerate image the sampled corners are the four edge pixels
at Nat coordinates. -/
theorem cornerColors_eq_AtN (img : Image) (hw : 0 < img.width) (hh : 0 < img.height) :
    cornerColors img
      = [img.AtN 0 0, img.AtN (img.width - 1) 0, img.AtN 0 (img.height - 1),
         img.AtN (img.width - 1) (img.height - 1)] := by
  have hx : ((img.width - 1 : Nat) : Int) = (img.width : Int) - 1 := by omega
  have hy : ((img.height - 1 : Nat) : Int) = (img.height : Int) - 1 := by omega
  have e1 : img.At 0 0 = img.AtN 0 0 := At_natCast img 0 0
  have e2 : img.At ((img.width : Int) - 1) 0 = img.AtN (img.width - 1) 0 := by
    have := At_natCast img (img.width - 1) 0
    rwa [hx] at this
  have e3 : img.At 0 ((img.height : Int) - 1) = img.AtN 0 (img.height - 1) := by
    have := At_natCast img 0 (img.height - 1)
    rwa [hy] at this
  have e4 : img.At ((img.width : Int) - 1) ((img.height : Int) - 1)
      = img.AtN (img.width - 1) (img.height - 1) := by
    have := At_natCast img (img.width - 1) (img.height - 1)
    rwa [hx, hy] at this
  unfold cornerColors
  rw [e1, e2, e3, e4]

/-- For a zero-width or zero-height image every sampled corner is out of
bounds and reads as the zero color. -/
theorem cornerColors_degenerate (img : Image)
    (h : img.width = 0 ∨ img.height = 0) :
    cornerColors img = [⟨0, 0, 0⟩, ⟨0, 0, 0⟩, ⟨0, 0, 0⟩, ⟨0, 0, 0⟩] := by
  unfold cornerColors Image.At
  rcases h with h | h <;> rw [h] <;> norm_num

/-- A rectangle with equal x extremes is empty. -/
theorem rect_isEmpty_of_eqX {a b c d : Nat} (h : a = c) :
    (Rect.mk a b c d).isEmpty = true := by
  subst h
  simp [Rect.isEmpty]

/-- A rectangle with equal y extremes is empty. -/
theorem rect_isEmpty_of_eqY {a b c d : Nat} (h : b = d) :
    (Rect.mk a b c d).isEmpty = true := by
  subst h
  simp [Rect.isEmpty]

/-- A rectangle built with equal x coordinates is empty whichever way
`image.Rect` orders the y coordinates. -/
theorem mkRect_eqX_isEmpty (x y0 y1 : Nat) : (mkRect x y0 x y1).isEmpty = true := by
  unfold mkRect
  rw [if_neg (Nat.lt_irrefl x)]
  by_cases h : y1 < y0
  · rw [if_pos h]; simp [Rect.isEmpty]
  · rw [if_neg h]; simp [Rect.isEmpty]

/-! ### Claim theorems -/

set_option maxRecDepth 100000

/-- C1 (counterexample): the source's column scans are NOT restricted to the
vertical range fixed by the row scans.  On `imgColRange` the row scans fix
the span [19, 20), yet the code classifies every column over the full height
(rows 0-18 included), consuming the whole width and returning an empty
rectangle, while the spec-restricted variant keeps columns 0-5.  In
particular column 0 is removable for the code (19 of 20 full-height pixels
are black) but not over the restricted span (0 of 1). -/
theorem colScan_restriction_counterexample :
    findContentBounds imgColRange = ⟨10, 19, 10, 20⟩
    ∧ findContentBoundsSpecCols imgColRange = ⟨0, 19, 6, 20⟩
    ∧ findContentBounds imgColRange ≠ findContentBoundsSpecCols imgColRange
    ∧ isColRemovable imgColRange ModeBlack 0 = true
    ∧ isColRemovableRestricted imgColRange ModeBlack 19 20 0 = false := by
  refine ⟨by decide, by decide, by decide, by decide, by decide⟩

/-- C1 (amended): a column's removability verdict is a function of that
column's pixels over the image's FULL vertical range [0, height) — pixels in
rows already excluded by the row scans do participate. -/
theorem isColRemovable_full_column_dependence
    (img1 img2 : Image) (mode : TargetMode) (x : Nat)
    (hh : img1.height = img2.height)
    (hcol : ∀ y, y < img1.height → img1.AtN x y = img2.AtN x y) :
    isColRemovable img1 mode x = isColRemovable img2 mode x := by
  unfold isColRemovable colMatchCount
  rw [hh]
  have hcount : ((List.range img2.height).countP fun y => pixelMatches mode (img1.AtN x y))
      = (List.range img2.height).countP fun y => pixelMatches mode (img2.AtN x y) := by
    apply List.countP_congr
    intro y hy
    rw [hcol y (by rw [hh]; exact List.mem_range.mp hy)]
  rw [hcount]

/-- C1 (witness): the dependence theorem applied to two concrete images that
agree on column 0. -/
theorem isColRemovable_full_column_dependence_witness :
    imgBlack2.height = imgHalf2.height
    ∧ (∀ y, y < imgBlack2.height → imgBlack2.AtN 0 y = imgHalf2.AtN 0 y)
    ∧ isColRemovable imgBlack2 ModeBlack 0 = isColRemovable imgHalf2 ModeBlack 0 :=
  ⟨rfl, by decide,
   isColRemovable_full_column_dependence imgBlack2 imgHalf2 ModeBlack 0 rfl (by decide)⟩

/-- C2 (counterexample): on a Scenario C image (one black-ish corner, the
diagonally opposite corner white-ish, the remaining two neither), the
detected mode is Black by the tie-break, not None as the spec's scenario
claims. -/
theorem scenC_mode_counterexample :
    detectMode imgScenC = ModeBlack ∧ detectMode imgScenC ≠ ModeNone
    ∧ findContentBounds imgScenC = fullBounds imgScenC := by
  refine ⟨by decide, by decide, by decide⟩

/-- C2 (amended): whenever the black-ish and white-ish corner counts tie at a
positive value — as in Scenario C, where each is 1 — the detector returns
Black (the asymmetric tie-break of §4.2 rule 3), never None. -/
theorem detectMode_tie_favors_black (img : Image)
    (htie : blackCornerCount img = whiteCornerCount img)
    (hpos : 0 < blackCornerCount img) :
    detectMode img = ModeBlack := by
  unfold blackCornerCount whiteCornerCount at htie
  unfold blackCornerCount at hpos
  simp only [detectMode, countCorners_eq]
  rw [if_neg (by omega), if_neg (by omega), if_pos hpos]

/-- C2 (witness): the amended tie-break theorem applied to the concrete
Scenario C image. -/
theorem detectMode_tie_favors_black_witness :
    blackCornerCount imgScenC = whiteCornerCount imgScenC
    ∧ 0 < blackCornerCount imgScenC
    ∧ detectMode imgScenC = ModeBlack :=
  ⟨by decide, by decide, detectMode_tie_favors_black imgScenC (by decide) (by decide)⟩

/-- C3: for every image, findContentBounds returns either an empty rectangle
or one with min.x < max.x, min.y < max.y, contained in the image's bounds. -/
theorem findContentBounds_subset (img : Image) :
    (findContentBounds img).isEmpty = true
    ∨ ((findContentBounds img).minX < (findContentBounds img).maxX
       ∧ (findContentBounds img).minY < (findContentBounds img).maxY
       ∧ (findContentBounds img).maxX ≤ img.width
       ∧ (findContentBounds img).maxY ≤ img.height) := by
  by_cases hm : detectMode img = ModeNone
  · rw [findContentBounds_none img hm]
    rcases Nat.eq_zero_or_pos img.width with h0 | h0
    · left; simp [fullBounds, Rect.isEmpty, h0]
    · rcases Nat.eq_zero_or_pos img.height with h1 | h1
      · left; simp [fullBounds, Rect.isEmpty, h1]
      · right
        exact ⟨h0, h1, Nat.le_refl _, Nat.le_refl _⟩
  · by_cases htop : img.height ≤ scanTop img (detectMode img)
    · left
      rw [findContentBounds_topEmpty img (detectMode img) rfl hm htop]
      rfl
    · have hminY : scanTop img (detectMode img) ≤ img.height := scanTop_le img _
      have hbot := scanBottom_bounds img (detectMode img) (scanTop img (detectMode img)) hminY
      have hminX : scanLeft img (detectMode img) ≤ img.width := scanLeft_le img _
      have hr := scanRight_bounds img (detectMode img) (scanLeft img (detectMode img)) hminX
      rw [findContentBounds_scans img (detectMode img) rfl hm htop,
        mkRect_of_le hr.1 hbot.1]
      by_cases ex : scanLeft img (detectMode img)
          = scanRight img (detectMode img) (scanLeft img (detectMode img))
      · left; exact rect_isEmpty_of_eqX ex
      · by_cases ey : scanTop img (detectMode img)
            = scanBottom img (detectMode img) (scanTop img (detectMode img))
        · left; exact rect_isEmpty_of_eqY ey
        · right
          exact ⟨Nat.lt_of_le_of_ne hr.1 ex, Nat.lt_of_le_of_ne hbot.1 ey, hr.2, hbot.2⟩

/-- C4: the mode decision equals the spec's rule chain over independently
counted black-ish and white-ish corners (each corner counting toward at most
one side): blackCount > whiteCount gives Black, whiteCount > blackCount gives
White, a tie with blackCount > 0 gives Black, a tie with whiteCount > 0 and
blackCount = 0 gives White, otherwise None. -/
theorem detectMode_eq_spec (img : Image) : detectMode img = detectModeSpec img := by
  unfold detectMode detectModeSpec blackCornerCount whiteCornerCount
  rw [countCorners_eq]

/-- C5: each of the four boundary scans stops at the first line that is
neither removable nor noise-skippable (removable-or-lookahead), advancing
line by line; and on the Scenario E image the fully white row 10 is not
removable yet is skipped by the lookahead over the pure-black rows 11-15,
giving the content bounds (30,30)-(70,70). -/
theorem boundary_scan_lookahead :
    (∀ img mode, scanTop img mode = firstFwdStop (isRowRemovable img mode) img.height)
    ∧ (∀ img mode minY, minY ≤ img.height →
        scanBottom img mode minY = firstBwdStop (isRowRemovable img mode) minY img.height)
    ∧ (∀ img mode, scanLeft img mode = firstFwdStop (isColRemovable img mode) img.width)
    ∧ (∀ img mode minX, minX ≤ img.width →
        scanRight img mode minX = firstBwdStop (isColRemovable img mode) minX img.width)
    ∧ isRowRemovable imgScenE ModeBlack 10 = false
    ∧ fwdSkip (isRowRemovable imgScenE ModeBlack) imgScenE.height 10 = true
    ∧ findContentBounds imgScenE = ⟨30, 30, 70, 70⟩ := by
  refine ⟨scanTop_eq_firstFwdStop, scanBottom_eq_firstBwdStop, scanLeft_eq_firstFwdStop,
    scanRight_eq_firstBwdStop, by decide, by decide, by decide⟩

/-- C5 (witness): the backward-scan characterizations applied at a concrete
image with the hypothesis discharged. -/
theorem boundary_scan_lookahead_witness :
    (0 ≤ imgBlack2.height
      ∧ scanBottom imgBlack2 ModeBlack 0
          = firstBwdStop (isRowRemovable imgBlack2 ModeBlack) 0 imgBlack2.height)
    ∧ (0 ≤ imgBlack2.width
      ∧ scanRight imgBlack2 ModeBlack 0
          = firstBwdStop (isColRemovable imgBlack2 ModeBlack) 0 imgBlack2.width) :=
  ⟨⟨Nat.zero_le _, boundary_scan_lookahead.2.1 imgBlack2 ModeBlack 0 (Nat.zero_le _)⟩,
   ⟨Nat.zero_le _, boundary_scan_lookahead.2.2.2.1 imgBlack2 ModeBlack 0 (Nat.zero_le _)⟩⟩

/-- C6: a row is removable iff its fraction of mode-matching pixels (channels
all at most 60 for Black, all at least 195 for White) is at least 0.95; on
Scenario D the width-100 row 5 with exactly 4 white strays (96 matches) is
removable and the result stays (20,20)-(80,80). -/
theorem rowRemovable_iff_matchRatio :
    (∀ img mode y, isRowRemovable img mode y = true
        ↔ (95 : ℚ) / 100 ≤ (specRowMatchCount img mode y : ℚ) / (img.width : ℚ))
    ∧ isRowRemovable imgScenD ModeBlack 5 = true
    ∧ specRowMatchCount imgScenD ModeBlack 5 = 96
    ∧ findContentBounds imgScenD = ⟨20, 20, 80, 80⟩ := by
  refine ⟨?_, by decide, by decide, by decide⟩
  intro img mode y
  simp only [isRowRemovable, Bool.and_eq_true, decide_eq_true_eq]
  rw [rowMatchCount_eq_spec]
  rcases Nat.eq_zero_or_pos img.width with h0 | h0
  · rw [h0]
    norm_num
  · have hw : (0 : ℚ) < (img.width : ℚ) := by exact_mod_cast h0
    rw [div_le_div_iff₀ (by norm_num) hw]
    constructor
    · rintro ⟨-, hle⟩
      qify at hle
      linarith
    · intro hle
      refine ⟨by omega, ?_⟩
      qify
      linarith

/-- C7: findContentBounds never signals an error — with mode None it returns
the image's own bounds unchanged, and in general it always returns a
rectangle; only processImage turns an empty rectangle into a per-file error
and skips writing output, and a non-empty rectangle is passed on. -/
theorem findContentBounds_no_failure (img : Image) :
    (detectMode img = ModeNone → findContentBounds img = fullBounds img)
    ∧ (processImageCore img = Except.error "image is completely black or empty"
        ↔ (findContentBounds img).isEmpty = true)
    ∧ ((findContentBounds img).isEmpty = false
        → processImageCore img = Except.ok (findContentBounds img)) := by
  refine ⟨findContentBounds_none img, ?_, ?_⟩
  · unfold processImageCore
    by_cases h : (findContentBounds img).isEmpty = true
    · rw [if_pos h]
      simp [h]
    · rw [if_neg h]
      simp [h]
  · intro h
    unfold processImageCore
    rw [if_neg (by simp [h])]

/-- C7 (witness): the mode-None no-op applied to a concrete all-gray image. -/
theorem findContentBounds_no_failure_witness :
    detectMode imgGray3 = ModeNone ∧ findContentBounds imgGray3 = fullBounds imgGray3 :=
  ⟨by decide, (findContentBounds_no_failure imgGray3).1 (by decide)⟩

/-- C8 (counterexample): idempotence fails as stated.  The 20x20 black-canvas
image with a white square crops to (5,5)-(15,15); the cropped output is all
white, so no edge pixel matches the ORIGINAL background mode (Black), yet
re-running findContentBounds detects mode White and returns the empty
rectangle, not the cropped image's full bounds. -/
theorem idempotence_counterexample :
    detectMode imgSquare = ModeBlack
    ∧ findContentBounds imgSquare = ⟨5, 5, 15, 15⟩
    ∧ noEdgeMatches (cropImage imgSquare (findContentBounds imgSquare))
        (detectMode imgSquare) = true
    ∧ findContentBounds (cropImage imgSquare (findContentBounds imgSquare))
        ≠ fullBounds (cropImage imgSquare (findContentBounds imgSquare)) := by
  refine ⟨by decide, by decide, by decide, by decide⟩

/-- C8 (amended): re-running the algorithm is the identity when no pixel on
any edge matches the mode RE-DETECTED on the cropped image itself: a Black or
White verdict always has a matching corner, which lies on an edge, so such an
image must have mode None and the algorithm returns its full bounds. -/
theorem rerun_noop_of_no_edge_match (img : Image)
    (hw : 0 < img.width) (hh : 0 < img.height)
    (hedge : noEdgeMatches img (detectMode img) = true) :
    findContentBounds img = fullBounds img := by
  have hmode : detectMode img = ModeNone := by
    rcases hmodecases : detectMode img with _ | _ | _
    · rfl
    · exfalso
      rcases detectMode_black_corner img hmodecases with ⟨c, hc, hblack⟩
      rw [cornerColors_eq_AtN img hw hh] at hc
      unfold noEdgeMatches at hedge
      rw [hmodecases] at hedge
      simp only [Bool.and_eq_true, List.all_eq_true] at hedge
      obtain ⟨-, hcol⟩ := hedge
      have h0 := hcol 0 (List.mem_range.mpr hh)
      have h1 := hcol (img.height - 1) (List.mem_range.mpr (by omega))
      simp only [Bool.not_eq_true', pixelMatches_black] at h0 h1
      simp only [List.mem_cons, List.not_mem_nil, or_false] at hc
      rcases hc with hc | hc | hc | hc <;> rw [hc] at hblack
      · rw [h0.1] at hblack; cases hblack
      · rw [h0.2] at hblack; cases hblack
      · rw [h1.1] at hblack; cases hblack
      · rw [h1.2] at hblack; cases hblack
    · exfalso
      rcases detectMode_white_corner img hmodecases with ⟨c, hc, hwhite⟩
      rw [cornerColors_eq_AtN img hw hh] at hc
      unfold noEdgeMatches at hedge
      rw [hmodecases] at hedge
      simp only [Bool.and_eq_true, List.all_eq_true] at hedge
      obtain ⟨-, hcol⟩ := hedge
      have h0 := hcol 0 (List.mem_range.mpr hh)
      have h1 := hcol (img.height - 1) (List.mem_range.mpr (by omega))
      simp only [Bool.not_eq_true', pixelMatches_white] at h0 h1
      simp only [List.mem_cons, List.not_mem_nil, or_false] at hc
      rcases hc with hc | hc | hc | hc <;> rw [hc] at hwhite
      · rw [h0.1] at hwhite; cases hwhite
      · rw [h0.2] at hwhite; cases hwhite
      · rw [h1.1] at hwhite; cases hwhite
      · rw [h1.2] at hwhite; cases hwhite
  exact findContentBounds_none img hmode

/-- C8 (witness): the amended idempotence theorem applied to a concrete 2x2
gray image whose edges match no mode. -/
theorem rerun_noop_of_no_edge_match_witness :
    0 < imgGray2.width ∧ 0 < imgGray2.height
    ∧ noEdgeMatches imgGray2 (detectMode imgGray2) = true
    ∧ findContentBounds imgGray2 = fullBounds imgGray2 :=
  ⟨by decide, by decide, by decide,
   rerun_noop_of_no_edge_match imgGray2 (by decide) (by decide) (by decide)⟩

/-- C9: an empty result can arise from the column scans alone.  On
`imgColRange` the mode is Black, row 19 is not removable (so the top scan
stops at 19, strictly inside the image, and the empty-return after the top
scan is not taken), yet every column is removable over the full height, the
left scan consumes the whole width, and the final rectangle is empty. -/
theorem empty_result_from_column_scans :
    detectMode imgColRange = ModeBlack
    ∧ isRowRemovable imgColRange ModeBlack 19 = false
    ∧ scanTop imgColRange ModeBlack = 19
    ∧ ¬ imgColRange.height ≤ scanTop imgColRange ModeBlack
    ∧ (List.range imgColRange.width).all
        (fun x => isColRemovable imgColRange ModeBlack x) = true
    ∧ scanLeft imgColRange ModeBlack = imgColRange.width
    ∧ (findContentBounds imgColRange).isEmpty = true := by
  refine ⟨by decide, by decide, by decide, by decide, by decide, by decide, by decide⟩

/-- C10: a zero-width or zero-height image is handled safely: every sampled
corner is out of bounds and reads as the zero color (black-ish), so the mode
becomes Black; a line with zero pixels is never removable (the 0/0 ratio
fails the tolerance test); and the result is an empty rectangle. -/
theorem degenerate_dims_safe (img : Image) (h : img.width = 0 ∨ img.height = 0) :
    detectMode img = ModeBlack
    ∧ (findContentBounds img).isEmpty = true
    ∧ (img.width = 0 → ∀ mode y, isRowRemovable img mode y = false)
    ∧ (img.height = 0 → ∀ mode x, isColRemovable img mode x = false) := by
  have hmode : detectMode img = ModeBlack := by
    unfold detectMode
    rw [cornerColors_degenerate img h]
    decide
  have hrow0 : img.width = 0 → ∀ mode y, isRowRemovable img mode y = false := by
    intro h0 mode y
    simp [isRowRemovable, h0]
  have hcol0 : img.height = 0 → ∀ mode x, isColRemovable img mode x = false := by
    intro h0 mode x
    simp [isColRemovable, h0]
  refine ⟨hmode, ?_, hrow0, hcol0⟩
  rcases h with h0 | h0
  · by_cases hh : img.height ≤ scanTop img ModeBlack
    · rw [findContentBounds_topEmpty img ModeBlack hmode (by decide) hh]
      rfl
    · rw [findContentBounds_scans img ModeBlack hmode (by decide) hh]
      have hL : scanLeft img ModeBlack = 0 := by
        unfold scanLeft
        rw [h0]
        rfl
      have hR : scanRight img ModeBlack 0 = 0 := by
        unfold scanRight
        rw [h0]
        rfl
      rw [hL, hR]
      exact mkRect_eqX_isEmpty 0 _ _
  · have hh : img.height ≤ scanTop img ModeBlack := by
      rw [h0]
      exact Nat.zero_le _
    rw [findContentBounds_topEmpty img ModeBlack hmode (by decide) hh]
    rfl

/-- C10 (witness): the degenerate-dimension theorem applied to a concrete
zero-width image. -/
theorem degenerate_dims_safe_witness :
    detectMode imgW0 = ModeBlack
    ∧ (findContentBounds imgW0).isEmpty = true
    ∧ isRowRemovable imgW0 ModeBlack 0 = false :=
  ⟨(degenerate_dims_safe imgW0 (Or.inl rfl)).1,
   (degenerate_dims_safe imgW0 (Or.inl rfl)).2.1,
   (degenerate_dims_safe imgW0 (Or.inl rfl)).2.2.1 rfl ModeBlack 0⟩
